import Mathlib

/-!
Verification of `lib/logstorage/json_parser.go` (JSON log-message flattening)
and the label-limit admission control of `lib/storage` against their
natural-language specification.

The upstream `fastjson` tokenizer is an external dependency consumed as a
black box: it produces a typed JSON value tree (null / object / array /
string / number / true / false).  We embed that tree as a closed inductive
type.  Numbers keep their raw textual form, exactly as `fastjson` stores
them; strings hold the *decoded* content (what `GetStringBytes` returns).
-/

namespace VM

inductive JsonValue : Type where
  | null
  | bool (b : Bool)
  | num (s : String)
  | str (s : String)
  | arr (elems : List JsonValue)
  | obj (entries : List (String × JsonValue))

/-- The `fastjson.Type` taxonomy (`v.Type()`). -/
inductive JsonType : Type where
  | TypeNull
  | TypeObject
  | TypeArray
  | TypeString
  | TypeNumber
  | TypeTrue
  | TypeFalse
deriving Repr, DecidableEq

def JsonValue.type : JsonValue → JsonType
  | .null => .TypeNull
  | .bool true => .TypeTrue
  | .bool false => .TypeFalse
  | .num _ => .TypeNumber
  | .str _ => .TypeString
  | .arr _ => .TypeArray
  | .obj _ => .TypeObject

/-- Hex digit used in `\u00XX` escapes of the string serializer. -/
def hexDigit (n : Nat) : Char :=
  if n < 10 then Char.ofNat (n + '0'.toNat) else Char.ofNat (n - 10 + 'a'.toNat)

/-- Escaping of one character inside a serialized JSON string. -/
def quoteChar (c : Char) : List Char :=
  if c = '"' then ['\\', '"']
  else if c = '\\' then ['\\', '\\']
  else if c = '\n' then ['\\', 'n']
  else if c = '\r' then ['\\', 'r']
  else if c = '\t' then ['\\', 't']
  else if c.toNat < 0x20 then
    ['\\', 'u', '0', '0', hexDigit (c.toNat / 16), hexDigit (c.toNat % 16)]
  else [c]

/-- `fastjson.escapeString`: quote a string for JSON output (fast path when no
special characters, otherwise character-wise escaping). -/
def escapeString (s : String) : String :=
  if s.data.any (fun c => c == '"' || c == '\\' || decide (c.toNat < 0x20)) then
    ⟨'"' :: (s.data.flatMap quoteChar ++ ['"'])⟩
  else "\"" ++ s ++ "\""

mutual
/-- `fastjson.Value.MarshalTo` (modulo the destination buffer, which the caller
appends the result to): the canonical textual JSON form of a value. -/
def marshal : JsonValue → String
  | .null => "null"
  | .bool true => "true"
  | .bool false => "false"
  | .num s => s
  | .str s => escapeString s
  | .arr es => "[" ++ marshalArr es ++ "]"
  | .obj es => "\x7b" ++ marshalObj es ++ "\x7d"

def marshalArr : List JsonValue → String
  | [] => ""
  | [v] => marshal v
  | v :: rest => marshal v ++ "," ++ marshalArr rest

def marshalObj : List (String × JsonValue) → String
  | [] => ""
  | [(k, v)] => escapeString k ++ ":" ++ marshal v
  | (k, v) :: rest => escapeString k ++ ":" ++ marshal v ++ "," ++ marshalObj rest
end

/-- One parsed log field: a (Name, Value) pair of strings.  In Go both are
views into the parser's backing buffer; here they are the denoted strings. -/
structure Field where
  Name : String
  Value : String
deriving Repr, DecidableEq

/-- Go slice truncation `b[:n]` on a byte buffer (bytes modelled as chars). -/
def strTake (s : String) (n : Nat) : String := ⟨s.data.take n⟩

/-- Go slice suffix `b[n:]` on a byte buffer. -/
def strDrop (s : String) (n : Nat) : String := ⟨s.data.drop n⟩

/-- `appendLogField` from json_parser.go: append prefixBuf+k to the backing
buffer, emit a Field whose Name is that fresh slice and whose Value is the
given slice. -/
def appendLogField (dst : List Field) (dstBuf prefixBuf k value : String) :
    List Field × String :=
  let dstBufLen := dstBuf.length
  let dstBuf1 := dstBuf ++ prefixBuf ++ k
  let name := strDrop dstBuf1 dstBufLen
  (dst ++ [{ Name := name, Value := value }], dstBuf1)

mutual
/-- `appendLogFields` from json_parser.go: `v.GetObject()` yields the entry
list when `v` is an object (and the empty visit otherwise); `o.Visit` then
iterates the entries in visitation order. -/
def appendLogFields (dst : List Field) (dstBuf prefixBuf : String) (v : JsonValue) :
    List Field × String × String :=
  match v with
  | .obj entries => visitFields dst dstBuf prefixBuf entries
  | _ => (dst, dstBuf, prefixBuf)

/-- The `o.Visit` closure of `appendLogFields`, iterated over the remaining
entries.  The `default:` branch of the Go switch (a panic on an impossible
`fastjson` type) is unreachable here because `JsonValue` is a closed variant:
every constructor is covered by one of the four cases below. -/
def visitFields (dst : List Field) (dstBuf prefixBuf : String)
    (es : List (String × JsonValue)) : List Field × String × String :=
  match es with
  | [] => (dst, dstBuf, prefixBuf)
  | (k, v) :: rest =>
    match v with
    | .null =>
        -- Skip nulls
        visitFields dst dstBuf prefixBuf rest
    | .obj entries =>
        -- Flatten nested JSON objects
        let prefixLen := prefixBuf.length
        let prefixBuf1 := prefixBuf ++ k ++ "."
        let r := appendLogFields dst dstBuf prefixBuf1 (.obj entries)
        visitFields r.1 r.2.1 (strTake r.2.2 prefixLen) rest
    | .str s =>
        -- Decode JSON strings
        let dstBufLen := dstBuf.length
        let dstBuf1 := dstBuf ++ s
        let value := strDrop dstBuf1 dstBufLen
        let r := appendLogField dst dstBuf1 prefixBuf k value
        visitFields r.1 r.2 prefixBuf rest
    | other =>
        -- Convert JSON arrays, numbers, true and false to their string form
        let dstBufLen := dstBuf.length
        let dstBuf1 := dstBuf ++ marshal other
        let value := strDrop dstBuf1 dstBufLen
        let r := appendLogField dst dstBuf1 prefixBuf k value
        visitFields r.1 r.2 prefixBuf rest
end

mutual
/-- The fields contributed by one object entry during flattening: nulls give
nothing, nested objects recurse under the extended prefix, strings give their
decoded content, arrays/numbers/booleans give their marshalled text. -/
def flattenEntry (pre : String) : String × JsonValue → List Field
  | (_, .null) => []
  | (k, .obj es) => flattenEntries (pre ++ k ++ ".") es
  | (k, .str s) => [{ Name := pre ++ k, Value := s }]
  | (k, v) => [{ Name := pre ++ k, Value := marshal v }]

/-- Concatenation of the per-entry fields, in visitation order. -/
def flattenEntries (pre : String) : List (String × JsonValue) → List Field
  | [] => []
  | e :: rest => flattenEntry pre e ++ flattenEntries pre rest
end

theorem strData_append (a b : String) : (a ++ b).data = a.data ++ b.data := by
  cases a; cases b; rfl

theorem strAppend_assoc (a b c : String) : a ++ b ++ c = a ++ (b ++ c) := by
  cases a with
  | mk da =>
    cases b with
    | mk db =>
      cases c with
      | mk dc =>
        show String.mk (da ++ db ++ dc) = String.mk (da ++ (db ++ dc))
        rw [List.append_assoc]

theorem strTake_append (a b : String) : strTake (a ++ b) a.length = a := by
  cases a with
  | mk da =>
    cases b with
    | mk db =>
      show String.mk ((da ++ db).take da.length) = String.mk da
      rw [List.take_left]

theorem strDrop_append (a b : String) : strDrop (a ++ b) a.length = b := by
  cases a with
  | mk da =>
    cases b with
    | mk db =>
      show String.mk ((da ++ db).drop da.length) = String.mk db
      rw [List.drop_left]

/-- The prefix push/pop: truncating the extended prefix back to the recorded
length restores the original prefix. -/
theorem strTake_pre (pre k : String) : strTake (pre ++ k ++ ".") pre.length = pre := by
  rw [strAppend_assoc]
  exact strTake_append pre (k ++ ".")

/-- The Name slice of `appendLogField`: dropping the old buffer length from
the extended buffer leaves exactly `prefixBuf ++ k`. -/
theorem strDrop_name (a b c : String) :
    strDrop (a ++ b ++ c) a.length = b ++ c := by
  rw [strAppend_assoc]
  exact strDrop_append a (b ++ c)

/-- The central structure lemma: the visit loop appends exactly the
`flattenEntries` fields to `dst` and returns the prefix buffer it was given
(the push/pop discipline restores it after every nested object). -/
theorem visitFields_spec (es : List (String × JsonValue)) (dst : List Field)
    (dstBuf pre : String) :
    (visitFields dst dstBuf pre es).1 = dst ++ flattenEntries pre es ∧
    (visitFields dst dstBuf pre es).2.2 = pre :=
  match es with
  | [] => by simp [visitFields, flattenEntries]
  | (k, v) :: rest =>
    match v with
    | .null => by
      have ih := visitFields_spec rest dst dstBuf pre
      simp [visitFields, flattenEntries, flattenEntry, ih.1, ih.2]
    | .obj entries => by
      have ih1 := visitFields_spec entries dst dstBuf (pre ++ k ++ ".")
      have ih2 := visitFields_spec rest
        (dst ++ flattenEntries (pre ++ k ++ ".") entries)
        (visitFields dst dstBuf (pre ++ k ++ ".") entries).2.1 pre
      simp only [visitFields, appendLogFields, ih1.2, strTake_pre, ih1.1]
      simp [ih2.1, ih2.2, flattenEntries, flattenEntry, List.append_assoc]
    | .str s => by
      have ih := visitFields_spec rest
        (dst ++ [{ Name := pre ++ k, Value := s }]) (dstBuf ++ s ++ pre ++ k) pre
      simp only [visitFields, appendLogField, strDrop_append, strDrop_name]
      simp [ih.1, ih.2, flattenEntries, flattenEntry, List.append_assoc]
    | .bool b => by
      have ih := visitFields_spec rest
        (dst ++ [{ Name := pre ++ k, Value := marshal (.bool b) }])
        (dstBuf ++ marshal (.bool b) ++ pre ++ k) pre
      simp only [visitFields, appendLogField, strDrop_append, strDrop_name]
      simp [ih.1, ih.2, flattenEntries, flattenEntry, List.append_assoc]
    | .num s => by
      have ih := visitFields_spec rest
        (dst ++ [{ Name := pre ++ k, Value := marshal (.num s) }])
        (dstBuf ++ marshal (.num s) ++ pre ++ k) pre
      simp only [visitFields, appendLogField, strDrop_append, strDrop_name]
      simp [ih.1, ih.2, flattenEntries, flattenEntry, List.append_assoc]
    | .arr elems => by
      have ih := visitFields_spec rest
        (dst ++ [{ Name := pre ++ k, Value := marshal (.arr elems) }])
        (dstBuf ++ marshal (.arr elems) ++ pre ++ k) pre
      simp only [visitFields, appendLogField, strDrop_append, strDrop_name]
      simp [ih.1, ih.2, flattenEntries, flattenEntry, List.append_assoc]
termination_by sizeOf es

/-- `flattenEntries` is a `flatMap`: each entry contributes its fields by
plain concatenation, independently of the other entries. -/
theorem flattenEntries_eq_flatMap (pre : String) (es : List (String × JsonValue)) :
    flattenEntries pre es = es.flatMap (flattenEntry pre) := by
  induction es with
  | nil => simp [flattenEntries]
  | cons e rest ih => simp [flattenEntries, ih]

/-- The mutable state of a `JSONParser` instance: the parsed `Fields`, the
backing buffer `buf` and the prefix-composition buffer `prefixBuf`.  The
embedded `fastjson.Parser` field `p` carries no observable state of its own
(its scratch tree is rebuilt on every call) and is omitted. -/
structure JSONParser where
  Fields : List Field
  buf : String
  prefixBuf : String
deriving Repr, DecidableEq

/-- `(*JSONParser).reset`: clear fields, prefix buffer and backing buffer. -/
def JSONParser.reset (_p : JSONParser) : JSONParser :=
  { Fields := [], buf := "", prefixBuf := "" }

/-- `(*JSONParser).resetNobuf`: clear fields and prefix buffer, keep `buf`. -/
def JSONParser.resetNobuf (p : JSONParser) : JSONParser :=
  { p with Fields := [], prefixBuf := "" }

/-- The error taxonomy of `parseLogMessage`:
`malformedInput` wraps the tokenizer's error (`"cannot parse json: %w"`),
`unexpectedRootType` carries the observed type (`"expecting json dictionary;
got %s"`). -/
inductive ParseError : Type where
  | malformedInput (cause : String)
  | unexpectedRootType (t : JsonType)
deriving Repr, DecidableEq

/-- `(*JSONParser).parseLogMessage`.  The `fastjson` tokenizer is a black box;
its outcome on `msg` is passed as `tok : Except String JsonValue`.  The Go
method mutates the receiver and returns an error; here it returns the error
option together with the receiver's state after the call.  Note the receiver
is reset only *after* both error checks succeed. -/
def parseLogMessage (p : JSONParser) (tok : Except String JsonValue)
    (pre : String) (resetBuf : Bool) : Option ParseError × JSONParser :=
  match tok with
  | .error e => (some (.malformedInput e), p)
  | .ok v =>
    if v.type ≠ .TypeObject then (some (.unexpectedRootType v.type), p)
    else
      let p1 := if resetBuf then p.reset else p.resetNobuf
      let prefixBuf1 := strTake p1.prefixBuf 0 ++ pre
      let r := appendLogFields p1.Fields p1.buf prefixBuf1 v
      (none, { Fields := r.1, buf := r.2.1, prefixBuf := r.2.2 })

/-- `(*JSONParser).ParseLogMessage` (resets the backing buffer). -/
def ParseLogMessage (p : JSONParser) (tok : Except String JsonValue)
    (pre : String) : Option ParseError × JSONParser :=
  parseLogMessage p tok pre true

/-- `(*JSONParser).ParseLogMessageNoResetBuf` (keeps the backing buffer). -/
def ParseLogMessageNoResetBuf (p : JSONParser) (tok : Except String JsonValue)
    (pre : String) : Option ParseError × JSONParser :=
  parseLogMessage p tok pre false

theorem strTake_zero (s : String) : strTake s 0 = "" := by
  cases s; rfl

theorem strNil_append (s : String) : "" ++ s = s := by
  cases s with
  | mk d =>
    show String.mk ([] ++ d) = String.mk d
    rw [List.nil_append]

/-- Evaluation of `parseLogMessage` on a successfully tokenized object root:
no error, the resulting fields are the flattening of the entries under the
supplied prefix, and the prefix buffer is left holding exactly that prefix. -/
theorem parseLogMessage_ok (p : JSONParser) (es : List (String × JsonValue))
    (pre : String) (b : Bool) :
    (parseLogMessage p (.ok (.obj es)) pre b).1 = none ∧
    (parseLogMessage p (.ok (.obj es)) pre b).2.Fields = flattenEntries pre es ∧
    (parseLogMessage p (.ok (.obj es)) pre b).2.prefixBuf = pre := by
  cases b with
  | false =>
    have h := visitFields_spec es [] p.buf pre
    simp [parseLogMessage, JsonValue.type, JSONParser.resetNobuf, appendLogFields,
      strTake_zero, strNil_append, h.1, h.2]
  | true =>
    have h := visitFields_spec es [] "" pre
    simp [parseLogMessage, JsonValue.type, JSONParser.reset, appendLogFields,
      strTake_zero, strNil_append, h.1, h.2]

/-- The scan loop of `RenameField`: rename the first field whose Name equals
`oldName`, then stop. -/
def renameFirst (oldName newName : String) : List Field → List Field
  | [] => []
  | f :: rest =>
    if f.Name = oldName then { f with Name := newName } :: rest
    else f :: renameFirst oldName newName rest

/-- `(*JSONParser).RenameField`: no-op on empty `oldName`, otherwise rename
the first matching field. -/
def RenameField (p : JSONParser) (oldName newName : String) : JSONParser :=
  if oldName = "" then p
  else { p with Fields := renameFirst oldName newName p.Fields }

/-- A freshly acquired parser (zero state). -/
def emptyJSONParser : JSONParser := { Fields := [], buf := "", prefixBuf := "" }

/-- The canonical entry list of the C1 example object
`{"a":{"b":"c"},"d":1,"e":null,"f":[1,2],"g":true}`. -/
def c1Entries : List (String × JsonValue) :=
  [("a", .obj [("b", .str "c")]),
   ("d", .num "1"),
   ("e", .null),
   ("f", .arr [.num "1", .num "2"]),
   ("g", .bool true)]

/-- The expected field set of the C1 example. -/
def c1Expected : List Field :=
  [{ Name := "a.b", Value := "c" }, { Name := "d", Value := "1" },
   { Name := "f", Value := "[1,2]" }, { Name := "g", Value := "true" }]

/-- C1: for every parse (i.e. every tokenizer visitation order) of the object
`{"a":{"b":"c"},"d":1,"e":null,"f":[1,2],"g":true}` with empty prefix, the
emitted Fields are, up to order, exactly the set
`{a.b: "c", d: "1", f: "[1,2]", g: "true"}`: nested objects flatten with
dotted names, numbers/arrays/booleans are serialized to their textual JSON
form, string values are decoded, and the null-valued key `e` produces no
Field. -/
theorem c1_flatten_example (es : List (String × JsonValue)) (h : es.Perm c1Entries) :
    ((ParseLogMessage emptyJSONParser (.ok (.obj es)) "").2.Fields).Perm c1Expected := by
  have hf := (parseLogMessage_ok emptyJSONParser es "" true).2.1
  rw [ParseLogMessage, hf, flattenEntries_eq_flatMap]
  have hp := h.flatMap_right (flattenEntry "")
  have he : c1Entries.flatMap (flattenEntry "") = c1Expected := by
    simp [c1Entries, c1Expected, flattenEntry, flattenEntries, marshal, marshalArr]
  rw [he] at hp
  exact hp

/-- Witness for C1 at the canonical visitation order. -/
theorem c1_flatten_example_witness :
    ((ParseLogMessage emptyJSONParser (.ok (.obj c1Entries)) "").2.Fields).Perm c1Expected :=
  c1_flatten_example c1Entries (List.Perm.refl _)

/-- C5: `parseLogMessage` fails with `malformedInput` exactly when the
tokenizer cannot parse the input bytes, fails with `unexpectedRootType`
(carrying the observed type) exactly when the tokenizer succeeds but the root
value is not an object, and succeeds otherwise; in both error cases the
parser state is returned untouched, so no Fields are produced by the call. -/
theorem c5_error_taxonomy (p : JSONParser) (tok : Except String JsonValue)
    (pre : String) (b : Bool) :
    (∀ e, tok = .error e → parseLogMessage p tok pre b = (some (.malformedInput e), p)) ∧
    (∀ v, tok = .ok v → v.type ≠ .TypeObject →
      parseLogMessage p tok pre b = (some (.unexpectedRootType v.type), p)) ∧
    (∀ v, tok = .ok v → v.type = .TypeObject →
      (parseLogMessage p tok pre b).1 = none) := by
  refine ⟨?_, ?_, ?_⟩
  · rintro e rfl
    rfl
  · rintro v rfl hv
    simp [parseLogMessage, hv]
  · rintro v rfl hv
    simp [parseLogMessage, hv]

/-- Witness for C5: a tokenizer failure (as on input `"not json{"`) yields
`malformedInput`; the valid non-object root `[1,2,3]` yields
`unexpectedRootType TypeArray`. -/
theorem c5_error_taxonomy_witness :
    parseLogMessage emptyJSONParser (.error "cannot parse JSON") "" true
      = (some (.malformedInput "cannot parse JSON"), emptyJSONParser) ∧
    parseLogMessage emptyJSONParser (.ok (.arr [.num "1", .num "2", .num "3"])) "" true
      = (some (.unexpectedRootType .TypeArray), emptyJSONParser) := by
  constructor
  · exact (c5_error_taxonomy emptyJSONParser (.error "cannot parse JSON") "" true).1 _ rfl
  · exact (c5_error_taxonomy emptyJSONParser (.ok (.arr [.num "1", .num "2", .num "3"]))
      "" true).2.1 _ rfl (by decide)

/-- A parser still holding the previous call's field state. -/
def c6Parser : JSONParser :=
  { Fields := [{ Name := "a", Value := "b" }], buf := "ab", prefixBuf := "" }

/-- C6 counterexample: after a failed Parse call (tokenizer error) on a parser
holding one field, the field state is NOT cleared — the previous field is
still there, because the Go method returns before any reset happens. -/
theorem c6_counterexample :
    (parseLogMessage c6Parser (.error "unexpected end of input") "" true).2.Fields
        = [{ Name := "a", Value := "b" }] ∧
    ([{ Name := "a", Value := "b" }] : List Field) ≠ [] :=
  ⟨rfl, by decide⟩

/-- C6 amended: when a Parse call fails because the tokenizer cannot parse
the input, the instance's state (fields, backing buffer, prefix buffer) is
left exactly as it was before the call — no partial progress, but also no
clearing. -/
theorem c6_failed_parse_state (p : JSONParser) (e pre : String) (b : Bool) :
    parseLogMessage p (.error e) pre b = (some (.malformedInput e), p) := rfl

/-- The C7 example value `{"x":{"y":{"z":"v"}}}`. -/
def c7Value : JsonValue := .obj [("x", .obj [("y", .obj [("z", .str "v")])])]

/-- C7 counterexample: parsing `{"x":{"y":{"z":"v"}}}` with prefix `"p."` on a
freshly acquired parser leaves the prefix buffer holding `"p."` (length 2),
which differs from the buffer's length before the call (0): the final clause
of the claim (post-call length equals pre-call length) fails. -/
theorem c7_counterexample :
    ¬ ((ParseLogMessage emptyJSONParser (.ok c7Value) "p.").2.prefixBuf.length
        = emptyJSONParser.prefixBuf.length) := by
  have hp := (parseLogMessage_ok emptyJSONParser
    [("x", .obj [("y", .obj [("z", .str "v")])])] "p." true).2.2
  simp only [ParseLogMessage, c7Value]
  rw [hp]
  decide

/-- C7 amended: parsing `{"x":{"y":{"z":"v"}}}` with prefix `"p."` yields
exactly one field `p.x.y.z` with value `v`; every nested-object recursion
returns the prefix buffer exactly as it received it (strict push/pop); and
after the whole call the prefix buffer holds exactly the supplied prefix
(so its length is the prefix's length, not the pre-call buffer length). -/
theorem c7_amended :
    ((ParseLogMessage emptyJSONParser (.ok c7Value) "p.").2.Fields
        = [{ Name := "p.x.y.z", Value := "v" }]) ∧
    (∀ (dst : List Field) (dstBuf pre : String) (v : JsonValue),
      (appendLogFields dst dstBuf pre v).2.2 = pre) ∧
    (∀ (p : JSONParser) (es : List (String × JsonValue)) (pre : String) (b : Bool),
      (parseLogMessage p (.ok (.obj es)) pre b).2.prefixBuf = pre) := by
  refine ⟨?_, ?_, ?_⟩
  · have hf := (parseLogMessage_ok emptyJSONParser
      [("x", .obj [("y", .obj [("z", .str "v")])])] "p." true).2.1
    simp only [ParseLogMessage, c7Value]
    rw [hf]
    simp [flattenEntries, flattenEntry]
  · intro dst dstBuf pre v
    cases v with
    | obj entries => exact (visitFields_spec entries dst dstBuf pre).2
    | null => rfl
    | bool b => rfl
    | num s => rfl
    | str s => rfl
    | arr elems => rfl
  · intro p es pre b
    exact (parseLogMessage_ok p es pre b).2.2

/-- The C8 example `{"a.b":1,"a":{"b":2}}` in its two visitation orders. -/
def c8Entries : List (String × JsonValue) :=
  [("a.b", .num "1"), ("a", .obj [("b", .num "2")])]

/-- The other visitation order of the C8 example. -/
def c8EntriesRev : List (String × JsonValue) :=
  [("a", .obj [("b", .num "2")]), ("a.b", .num "1")]

/-- C8: flattening performs no deduplication — in `{"a.b":1,"a":{"b":2}}`
both source keys flatten to the name `a.b` and both Fields are emitted, in
visitation order (shown for both orders); in general the emitted field list
is the plain per-entry concatenation (`flatMap`), so colliding names are
never merged or overwritten. -/
theorem c8_no_dedup :
    ((ParseLogMessage emptyJSONParser (.ok (.obj c8Entries)) "").2.Fields
        = [{ Name := "a.b", Value := "1" }, { Name := "a.b", Value := "2" }]) ∧
    ((ParseLogMessage emptyJSONParser (.ok (.obj c8EntriesRev)) "").2.Fields
        = [{ Name := "a.b", Value := "2" }, { Name := "a.b", Value := "1" }]) ∧
    (∀ (dst : List Field) (dstBuf pre : String) (es : List (String × JsonValue)),
      (visitFields dst dstBuf pre es).1 = dst ++ es.flatMap (flattenEntry pre)) := by
  refine ⟨?_, ?_, ?_⟩
  · have hf := (parseLogMessage_ok emptyJSONParser c8Entries "" true).2.1
    rw [ParseLogMessage, hf]
    simp [c8Entries, flattenEntries, flattenEntry, marshal]
  · have hf := (parseLogMessage_ok emptyJSONParser c8EntriesRev "" true).2.1
    rw [ParseLogMessage, hf]
    simp [c8EntriesRev, flattenEntries, flattenEntry, marshal]
  · intro dst dstBuf pre es
    rw [(visitFields_spec es dst dstBuf pre).1, flattenEntries_eq_flatMap]

/-- C10: the emitted name of a top-level key is the verbatim concatenation
`prefix ++ key` — no `.` separator is inserted between the supplied prefix
and the key; a `.` is appended only when descending into a nested object. -/
theorem c10_prefix_verbatim (pre k k2 : String) (v : JsonValue)
    (hv : v.type ≠ .TypeNull ∧ v.type ≠ .TypeObject) :
    (((parseLogMessage emptyJSONParser (.ok (.obj [(k, v)])) pre true).2.Fields).map Field.Name
        = [pre ++ k]) ∧
    (((parseLogMessage emptyJSONParser (.ok (.obj [(k, .obj [(k2, v)])])) pre true).2.Fields).map Field.Name
        = [pre ++ k ++ "." ++ k2]) := by
  obtain ⟨h1, h2⟩ := hv
  constructor
  · rw [(parseLogMessage_ok emptyJSONParser [(k, v)] pre true).2.1]
    cases v <;> simp_all [flattenEntries, flattenEntry, JsonValue.type]
  · rw [(parseLogMessage_ok emptyJSONParser [(k, .obj [(k2, v)])] pre true).2.1]
    cases v <;> simp_all [flattenEntries, flattenEntry, JsonValue.type]

/-- Witness for C10: prefix `"p"` (no trailing dot) and key `"k"` give the
name `pk` — no separator appears; descending one object level inserts the
single dot: `pk.y`. -/
theorem c10_prefix_verbatim_witness :
    (((parseLogMessage emptyJSONParser (.ok (.obj [("k", .num "1")])) "p" true).2.Fields).map Field.Name
        = ["pk"]) ∧
    (((parseLogMessage emptyJSONParser (.ok (.obj [("k", .obj [("y", .num "1")])])) "p" true).2.Fields).map Field.Name
        = ["pk.y"]) := by
  have h := c10_prefix_verbatim "p" "k" "y" (.num "1") ⟨by decide, by decide⟩
  exact ⟨h.1.trans (by decide), h.2.trans (by decide)⟩

/-- The first-match rename, described through `findIdx?`/`set` as the spec
phrases it: locate the first field whose Name equals `o`, replace only its
Name, keep its Value and everything else. -/
def renameFieldSpec (fields : List Field) (o n : String) : List Field :=
  if o = "" then fields
  else
    match fields.findIdx? (fun f => f.Name == o) with
    | none => fields
    | some i => fields.set i { fields.getD i { Name := "", Value := "" } with Name := n }

theorem renameFirst_spec (o n : String) (fields : List Field) :
    renameFirst o n fields =
      match fields.findIdx? (fun f => f.Name == o) with
      | none => fields
      | some i => fields.set i { fields.getD i { Name := "", Value := "" } with Name := n } := by
  induction fields with
  | nil => rfl
  | cons f rest ih =>
    by_cases h : f.Name = o
    · simp [renameFirst, h, List.findIdx?_cons]
    · simp only [renameFirst, h, if_false, List.findIdx?_cons, beq_iff_eq, if_neg h]
      cases hr : rest.findIdx? (fun f => f.Name == o) with
      | none => simp [ih, hr]
      | some i => simp [ih, hr]

/-- C9: `RenameField` renames only the first field (in field order) whose
Name equals `oldName`, is a no-op when `oldName` is empty or unmatched,
renames at most one field even among duplicates, and changes nothing else —
Values, other Names, and the buffers are untouched.  The duplicate case is
exhibited concretely. -/
theorem c9_renameField (p : JSONParser) (o n : String) :
    (RenameField p o n = { p with Fields := renameFieldSpec p.Fields o n }) ∧
    (RenameField { Fields := [{ Name := "a", Value := "1" }, { Name := "a", Value := "2" }],
                   buf := "", prefixBuf := "" } "a" "b"
      = { Fields := [{ Name := "b", Value := "1" }, { Name := "a", Value := "2" }],
          buf := "", prefixBuf := "" }) := by
  constructor
  · by_cases h : o = ""
    · simp [RenameField, renameFieldSpec, h]
    · simp [RenameField, renameFieldSpec, h, renameFirst_spec]
  · decide

/-!
The label-limit admission control of `lib/storage`.

Go byte lengths `len(s)` are modelled as `String.length` (the claims only
exercise single-byte characters, where the two coincide).  The three atomic
counters are gathered in a `VMetrics` record; the throttled log emission
attached to each counter bump is time/channel behaviour outside the shallow
embedding and has no effect on the counters or the returned decision.
-/

/-- The maximum length of a label name (fixed constant). -/
def maxLabelNameLen : Nat := 256

/-- The two runtime-configurable limits (`maxLabelsPerTimeseries`,
`maxLabelValueLen` package globals, set once by `InitLabelsLimits`). -/
structure LabelsLimits where
  maxLabelsPerTimeseries : Nat
  maxLabelValueLen : Nat
deriving Repr, DecidableEq

/-- The initial values of the two package globals. -/
def defaultLabelsLimits : LabelsLimits :=
  { maxLabelsPerTimeseries := 40, maxLabelValueLen := 4 * 1024 }

/-- `prompbmarshal.Label`. -/
structure Label where
  Name : String
  Value : String
deriving Repr, DecidableEq

/-- The three `atomic.Uint64` ignored-series counters. -/
structure VMetrics where
  ignoredSeriesWithTooManyLabels : Nat
  ignoredSeriesWithTooLongLabelName : Nat
  ignoredSeriesWithTooLongLabelValue : Nat
deriving Repr, DecidableEq

/-- `trackIgnoredSeriesWithTooManyLabels`: `Add(1)` on the counter (the
throttled warning writes no observable state modelled here). -/
def trackIgnoredSeriesWithTooManyLabels (m : VMetrics) : VMetrics :=
  { m with ignoredSeriesWithTooManyLabels := m.ignoredSeriesWithTooManyLabels + 1 }

/-- `trackIgnoredSeriesWithTooLongLabelName`: `Add(1)` on the counter. -/
def trackIgnoredSeriesWithTooLongLabelName (m : VMetrics) : VMetrics :=
  { m with ignoredSeriesWithTooLongLabelName := m.ignoredSeriesWithTooLongLabelName + 1 }

/-- `trackIgnoredSeriesWithTooLongLabelValue`: `Add(1)` on the counter. -/
def trackIgnoredSeriesWithTooLongLabelValue (m : VMetrics) : VMetrics :=
  { m with ignoredSeriesWithTooLongLabelValue := m.ignoredSeriesWithTooLongLabelValue + 1 }

/-- The `for _, l := range labels` loop of `ExceedingLabels`: name length
check first, then value length check, stopping at the first violation. -/
def exceedingLabelsLoop (cfg : LabelsLimits) (m : VMetrics) :
    List Label → Bool × VMetrics
  | [] => (false, m)
  | l :: rest =>
    if l.Name.length > maxLabelNameLen then
      (true, trackIgnoredSeriesWithTooLongLabelName m)
    else if l.Value.length > cfg.maxLabelValueLen then
      (true, trackIgnoredSeriesWithTooLongLabelValue m)
    else exceedingLabelsLoop cfg m rest

/-- `ExceedingLabels`: label-count check first, then the per-label scan.
Returns the decision together with the counter state after the call. -/
def ExceedingLabels (cfg : LabelsLimits) (m : VMetrics) (labels : List Label) :
    Bool × VMetrics :=
  if labels.length > cfg.maxLabelsPerTimeseries then
    (true, trackIgnoredSeriesWithTooManyLabels m)
  else exceedingLabelsLoop cfg m labels

/-- The per-label scan: the returned bit is true iff some label violates its
name-length or value-length limit; a clean scan leaves the counters
untouched. -/
theorem exceedingLabelsLoop_spec (cfg : LabelsLimits) (m : VMetrics) (labels : List Label) :
    ((exceedingLabelsLoop cfg m labels).1 = true ↔
      ∃ l ∈ labels, l.Name.length > maxLabelNameLen ∨ l.Value.length > cfg.maxLabelValueLen) ∧
    ((exceedingLabelsLoop cfg m labels).1 = false → (exceedingLabelsLoop cfg m labels).2 = m) := by
  induction labels with
  | nil => simp [exceedingLabelsLoop]
  | cons l rest ih =>
    by_cases h1 : l.Name.length > maxLabelNameLen
    · simp [exceedingLabelsLoop, h1]
    · by_cases h2 : l.Value.length > cfg.maxLabelValueLen
      · simp [exceedingLabelsLoop, h1, h2]
      · simp only [exceedingLabelsLoop, if_neg h1, if_neg h2]
        refine ⟨?_, ih.2⟩
        rw [ih.1]
        simp [h1, h2]

/-- C3: `ExceedingLabels` returns true iff the label set violates at least
one of the three limits (count, name length, value length); when it returns
false, the counter state is unchanged — no side effect occurs. -/
theorem c3_exceeds_iff (cfg : LabelsLimits) (m : VMetrics) (labels : List Label) :
    ((ExceedingLabels cfg m labels).1 = true ↔
      labels.length > cfg.maxLabelsPerTimeseries ∨
        ∃ l ∈ labels, l.Name.length > maxLabelNameLen ∨ l.Value.length > cfg.maxLabelValueLen) ∧
    ((ExceedingLabels cfg m labels).1 = false → (ExceedingLabels cfg m labels).2 = m) := by
  by_cases h : labels.length > cfg.maxLabelsPerTimeseries
  · simp [ExceedingLabels, h]
  · have hs := exceedingLabelsLoop_spec cfg m labels
    simp only [ExceedingLabels, if_neg h]
    refine ⟨?_, hs.2⟩
    rw [hs.1]
    simp [h]

/-- Witness for C3: a clean one-label set is admitted and the counters are
untouched. -/
theorem c3_exceeds_iff_witness :
    (ExceedingLabels defaultLabelsLimits
        { ignoredSeriesWithTooManyLabels := 5, ignoredSeriesWithTooLongLabelName := 6,
          ignoredSeriesWithTooLongLabelValue := 7 }
        [{ Name := "job", Value := "x" }]).2
      = { ignoredSeriesWithTooManyLabels := 5, ignoredSeriesWithTooLongLabelName := 6,
          ignoredSeriesWithTooLongLabelValue := 7 } :=
  (c3_exceeds_iff defaultLabelsLimits _ _).2 (by decide)

/-- The three violation kinds of the admission validator. -/
inductive ViolationKind : Type where
  | tooManyLabels
  | labelNameTooLong
  | labelValueTooLong
deriving Repr, DecidableEq

/-- One label's own checks, name first (the order inside the loop body). -/
def labelViolates (cfg : LabelsLimits) (l : Label) : Bool :=
  decide (l.Name.length > maxLabelNameLen) || decide (l.Value.length > cfg.maxLabelValueLen)

/-- The spec's description of the scan: the label-count check comes first;
otherwise the first label (in the set's given order) failing its own checks
determines the kind, its name check taken before its value check. -/
def firstViolation (cfg : LabelsLimits) (labels : List Label) : Option ViolationKind :=
  if labels.length > cfg.maxLabelsPerTimeseries then some .tooManyLabels
  else
    match labels.find? (labelViolates cfg) with
    | none => none
    | some l =>
      if l.Name.length > maxLabelNameLen then some .labelNameTooLong
      else some .labelValueTooLong

/-- Exactly one counter — the one of the detected kind — bumped by one. -/
def bumpCounter : ViolationKind → VMetrics → VMetrics
  | .tooManyLabels, m => trackIgnoredSeriesWithTooManyLabels m
  | .labelNameTooLong, m => trackIgnoredSeriesWithTooLongLabelName m
  | .labelValueTooLong, m => trackIgnoredSeriesWithTooLongLabelValue m

/-- The loop refines the find-first-violating-label description. -/
theorem exceedingLabelsLoop_eq_find (cfg : LabelsLimits) (m : VMetrics)
    (labels : List Label) :
    exceedingLabelsLoop cfg m labels =
      match labels.find? (labelViolates cfg) with
      | none => (false, m)
      | some l =>
        if l.Name.length > maxLabelNameLen then
          (true, trackIgnoredSeriesWithTooLongLabelName m)
        else (true, trackIgnoredSeriesWithTooLongLabelValue m) := by
  induction labels with
  | nil => rfl
  | cons l rest ih =>
    by_cases h1 : l.Name.length > maxLabelNameLen
    · simp [exceedingLabelsLoop, h1, labelViolates, List.find?]
    · by_cases h2 : l.Value.length > cfg.maxLabelValueLen
      · simp [exceedingLabelsLoop, h1, h2, labelViolates, List.find?]
      · simp [exceedingLabelsLoop, h1, h2, labelViolates, List.find?, ih]

/-- C4: the violation checks run in a fixed order with short-circuiting —
the label-count check first, then the labels in their given order with each
name check before its value check, the first violating label stopping the
scan — and every rejection bumps exactly the counter of the detected kind
by exactly 1 (the total across the three counters grows by exactly 1). -/
theorem c4_fixed_order (cfg : LabelsLimits) (m : VMetrics) (labels : List Label) :
    (ExceedingLabels cfg m labels =
      match firstViolation cfg labels with
      | none => (false, m)
      | some k => (true, bumpCounter k m)) ∧
    (∀ k : ViolationKind,
      (bumpCounter k m).ignoredSeriesWithTooManyLabels
          + (bumpCounter k m).ignoredSeriesWithTooLongLabelName
          + (bumpCounter k m).ignoredSeriesWithTooLongLabelValue
        = m.ignoredSeriesWithTooManyLabels + m.ignoredSeriesWithTooLongLabelName
          + m.ignoredSeriesWithTooLongLabelValue + 1) := by
  constructor
  · by_cases h : labels.length > cfg.maxLabelsPerTimeseries
    · simp [ExceedingLabels, firstViolation, h, bumpCounter]
    · cases hf : labels.find? (labelViolates cfg) with
      | none =>
        simp [ExceedingLabels, firstViolation, h, exceedingLabelsLoop_eq_find, hf]
      | some l =>
        by_cases hn : l.Name.length > maxLabelNameLen
        · simp [ExceedingLabels, firstViolation, h, exceedingLabelsLoop_eq_find, hf,
            hn, bumpCounter]
        · simp [ExceedingLabels, firstViolation, h, exceedingLabelsLoop_eq_find, hf,
            hn, bumpCounter]
  · intro k
    cases k <;>
      simp [bumpCounter, trackIgnoredSeriesWithTooManyLabels,
        trackIgnoredSeriesWithTooLongLabelName,
        trackIgnoredSeriesWithTooLongLabelValue] <;>
      omega

/-- A scan over labels that all satisfy both per-label limits is clean. -/
theorem exceedingLabelsLoop_clean (cfg : LabelsLimits) (m : VMetrics)
    (labels : List Label)
    (h : ∀ l ∈ labels, ¬ l.Name.length > maxLabelNameLen ∧
      ¬ l.Value.length > cfg.maxLabelValueLen) :
    exceedingLabelsLoop cfg m labels = (false, m) := by
  induction labels with
  | nil => rfl
  | cons l rest ih =>
    obtain ⟨h1, h2⟩ := h l (List.mem_cons_self l rest)
    simp only [exceedingLabelsLoop, if_neg h1, if_neg h2]
    exact ih (fun x hx => h x (List.mem_cons_of_mem l hx))

/-- C2: the admission limits are exclusive bounds at the default limits
(`maxLabelsPerTimeseries = 40`, `maxLabelValueLen = 4096`,
`maxLabelNameLen = 256`): 40 otherwise-clean labels are admitted while 41
labels are rejected with exactly the too-many-labels counter bumped by 1; a
value of length 4096 passes while 4097 fails with exactly the
value-too-long counter bumped by 1; a name of length 256 passes while 257
fails with exactly the name-too-long counter bumped by 1. -/
theorem c2_boundaries :
    (∀ (m : VMetrics) (labels : List Label), labels.length = 40 →
      (∀ l ∈ labels, l.Name.length ≤ 256 ∧ l.Value.length ≤ 4096) →
      ExceedingLabels defaultLabelsLimits m labels = (false, m)) ∧
    (∀ (m : VMetrics) (labels : List Label), labels.length = 41 →
      ExceedingLabels defaultLabelsLimits m labels
        = (true, { m with ignoredSeriesWithTooManyLabels :=
            m.ignoredSeriesWithTooManyLabels + 1 })) ∧
    (∀ (m : VMetrics) (name value : String), name.length ≤ 256 →
      value.length = 4096 →
      ExceedingLabels defaultLabelsLimits m [{ Name := name, Value := value }]
        = (false, m)) ∧
    (∀ (m : VMetrics) (name value : String), name.length ≤ 256 →
      value.length = 4097 →
      ExceedingLabels defaultLabelsLimits m [{ Name := name, Value := value }]
        = (true, { m with ignoredSeriesWithTooLongLabelValue :=
            m.ignoredSeriesWithTooLongLabelValue + 1 })) ∧
    (∀ (m : VMetrics) (name value : String), name.length = 256 →
      value.length ≤ 4096 →
      ExceedingLabels defaultLabelsLimits m [{ Name := name, Value := value }]
        = (false, m)) ∧
    (∀ (m : VMetrics) (name value : String), name.length = 257 →
      ExceedingLabels defaultLabelsLimits m [{ Name := name, Value := value }]
        = (true, { m with ignoredSeriesWithTooLongLabelName :=
            m.ignoredSeriesWithTooLongLabelName + 1 })) := by
  refine ⟨?_, ?_, ?_, ?_, ?_, ?_⟩
  · intro m labels h40 hok
    have hc : ¬ labels.length > defaultLabelsLimits.maxLabelsPerTimeseries := by
      simp [defaultLabelsLimits, h40]
    rw [ExceedingLabels, if_neg hc]
    refine exceedingLabelsLoop_clean _ _ _ ?_
    intro l hl
    obtain ⟨ha, hb⟩ := hok l hl
    exact ⟨by simp [maxLabelNameLen]; omega, by simp [defaultLabelsLimits]; omega⟩
  · intro m labels h41
    have hc : labels.length > defaultLabelsLimits.maxLabelsPerTimeseries := by
      simp [defaultLabelsLimits, h41]
    rw [ExceedingLabels, if_pos hc]
    rfl
  · intro m name value hn hv
    have h1 : ¬ name.length > maxLabelNameLen := by simp [maxLabelNameLen]; omega
    have h2 : ¬ value.length > defaultLabelsLimits.maxLabelValueLen := by
      simp [defaultLabelsLimits]; omega
    simp [ExceedingLabels, defaultLabelsLimits, exceedingLabelsLoop, h1, h2] at h2 ⊢
    simp [exceedingLabelsLoop, h1, h2]
  · intro m name value hn hv
    have h1 : ¬ name.length > maxLabelNameLen := by simp [maxLabelNameLen]; omega
    have h2 : value.length > defaultLabelsLimits.maxLabelValueLen := by
      simp [defaultLabelsLimits]; omega
    have hc : ¬ ([{ Name := name, Value := value }] : List Label).length
        > defaultLabelsLimits.maxLabelsPerTimeseries := by simp [defaultLabelsLimits]
    rw [ExceedingLabels, if_neg hc, exceedingLabelsLoop, if_neg h1, if_pos h2]
    rfl
  · intro m name value hn hv
    have h1 : ¬ name.length > maxLabelNameLen := by simp [maxLabelNameLen]; omega
    have h2 : ¬ value.length > defaultLabelsLimits.maxLabelValueLen := by
      simp [defaultLabelsLimits]; omega
    have hc : ¬ ([{ Name := name, Value := value }] : List Label).length
        > defaultLabelsLimits.maxLabelsPerTimeseries := by simp [defaultLabelsLimits]
    rw [ExceedingLabels, if_neg hc, exceedingLabelsLoop, if_neg h1, if_neg h2]
    rfl
  · intro m name value hn
    have h1 : name.length > maxLabelNameLen := by simp [maxLabelNameLen]; omega
    have hc : ¬ ([{ Name := name, Value := value }] : List Label).length
        > defaultLabelsLimits.maxLabelsPerTimeseries := by simp [defaultLabelsLimits]
    rw [ExceedingLabels, if_neg hc, exceedingLabelsLoop, if_pos h1]
    rfl

/-- Witness for C2: the six boundary cases at concrete inputs (40/41 labels,
value lengths 4096/4097, name lengths 256/257). -/
theorem c2_boundaries_witness :
    ExceedingLabels defaultLabelsLimits ⟨0, 0, 0⟩
        (List.replicate 40 { Name := "n", Value := "v" }) = (false, ⟨0, 0, 0⟩) ∧
    ExceedingLabels defaultLabelsLimits ⟨0, 0, 0⟩
        (List.replicate 41 { Name := "n", Value := "v" }) = (true, ⟨1, 0, 0⟩) ∧
    ExceedingLabels defaultLabelsLimits ⟨0, 0, 0⟩
        [{ Name := "n", Value := String.mk (List.replicate 4096 'v') }]
      = (false, ⟨0, 0, 0⟩) ∧
    ExceedingLabels defaultLabelsLimits ⟨0, 0, 0⟩
        [{ Name := "n", Value := String.mk (List.replicate 4097 'v') }]
      = (true, ⟨0, 0, 1⟩) ∧
    ExceedingLabels defaultLabelsLimits ⟨0, 0, 0⟩
        [{ Name := String.mk (List.replicate 256 'n'), Value := "v" }]
      = (false, ⟨0, 0, 0⟩) ∧
    ExceedingLabels defaultLabelsLimits ⟨0, 0, 0⟩
        [{ Name := String.mk (List.replicate 257 'n'), Value := "v" }]
      = (true, ⟨0, 1, 0⟩) := by
  refine ⟨?_, ?_, ?_, ?_, ?_, ?_⟩
  · exact c2_boundaries.1 _ _ (List.length_replicate _ _)
      (fun l hl => by rw [List.eq_of_mem_replicate hl]; exact ⟨by decide, by decide⟩)
  · exact c2_boundaries.2.1 _ _ (List.length_replicate _ _)
  · exact c2_boundaries.2.2.1 _ _ _ (by decide) (List.length_replicate _ _)
  · exact c2_boundaries.2.2.2.1 _ _ _ (by decide) (List.length_replicate _ _)
  · exact c2_boundaries.2.2.2.2.1 _ _ _ (List.length_replicate _ _) (by decide)
  · exact c2_boundaries.2.2.2.2.2 _ _ _ (List.length_replicate _ _)

end VM
